import Mathlib

/-!
Verification development for the TradeMatrix query-understanding and
response-synthesis pipeline.

The Python sources are embedded shallowly:

* floats are modelled as exact rationals (`ℚ`); Python `round(x, 2)` is
  modelled as decimal rounding half-to-even (`round2`);
* Python `datetime.date` values are modelled by their proleptic-Gregorian
  ordinal (`PyDate.toOrdinal`, the value CPython's `date.toordinal` computes);
  date arithmetic in the source is ordinal arithmetic;
* fallible Python code (division by zero, date overflow) is modelled with
  `Except PyErr`;
* `re.search` used as a boolean test is modelled by an executable matcher
  over a small regular-expression syntax (`Rx`, `searchRx`).
-/

namespace TradeMatrix

/-- Errors raised by the embedded Python fragments. -/
inductive PyErr where
  | zeroDivision
  | overflowError
  deriving DecidableEq, Repr

/-! ### Rounding: Python `round(x, 2)` (round-half-to-even) -/

/-- Round a rational to the nearest integer, ties to even
(the rounding Python `round` performs). -/
def roundHalfEven (q : ℚ) : ℤ :=
  let n := ⌊q⌋
  let f := q - n
  if f < 1/2 then n
  else if 1/2 < f then n + 1
  else if n % 2 = 0 then n else n + 1

/-- Python `round(x, 2)`: round to two decimal places, ties to even. -/
def round2 (q : ℚ) : ℚ := (roundHalfEven (q * 100) : ℚ) / 100

/-! ### List statistics primitives (Python `min`, `max`, `statistics.mean`,
`statistics.median`, `statistics.stdev`) -/

/-- Python `min` over a nonempty list (0 on `[]`, never used there). -/
def listMin : List ℚ → ℚ
  | [] => 0
  | [x] => x
  | x :: y :: ys => min x (listMin (y :: ys))

/-- Python `max` over a nonempty list (0 on `[]`, never used there). -/
def listMax : List ℚ → ℚ
  | [] => 0
  | [x] => x
  | x :: y :: ys => max x (listMax (y :: ys))

/-- Python `statistics.mean`: sum divided by length. -/
def meanQ (l : List ℚ) : ℚ := l.sum / l.length

/-- Insert into a sorted list (one step of the sort used to model
Python `sorted`). -/
def insortA (x : ℚ) : List ℚ → List ℚ
  | [] => [x]
  | y :: ys => if x ≤ y then x :: y :: ys else y :: insortA x ys

/-- Sorting model for Python `sorted(values)`. -/
def sortQ : List ℚ → List ℚ
  | [] => []
  | x :: xs => insortA x (sortQ xs)

/-- Python `statistics.median`: middle element of the sorted list, or the
average of the two middle elements for even length. -/
def medianQ (l : List ℚ) : ℚ :=
  let s := sortQ l
  let n := s.length
  if n % 2 = 1 then s.getD (n / 2) 0
  else (s.getD (n / 2 - 1) 0 + s.getD (n / 2) 0) / 2

/-- Sample variance (the quantity whose square root Python
`statistics.stdev` returns). -/
def sampleVarQ (l : List ℚ) : ℚ :=
  (l.map (fun x => (x - meanQ l) ^ 2)).sum / ((l.length : ℚ) - 1)

/-- Round-half-to-even on the reals (for the rounded standard deviation). -/
noncomputable def roundHalfEvenR (x : ℝ) : ℤ :=
  let n := ⌊x⌋
  let f := x - n
  if f < 1/2 then n
  else if 1/2 < f then n + 1
  else if n % 2 = 0 then n else n + 1

/-- Python `round(x, 2)` on the reals. -/
noncomputable def round2R (x : ℝ) : ℝ := (roundHalfEvenR (x * 100) : ℝ) / 100

/-- The `volatility` statistic of `analyze_price_data` /
`_calculate_statistics`: `round(statistics.stdev(values), 2)` when more
than one value survives coercion, else `0`.  Kept outside the otherwise
computable statistics record because the square root is irrational. -/
noncomputable def volatilityOf (values : List ℚ) : ℝ :=
  if 1 < values.length then round2R (Real.sqrt ((sampleVarQ values : ℚ) : ℝ)) else 0

/-! ### Python `float()` coercion of string values -/

def isAsciiDigit (c : Char) : Bool := '0' ≤ c && c ≤ '9'

/-- Whitespace stripped by Python `float()` around the literal. -/
def isPySpace (c : Char) : Bool :=
  c = ' ' || c = '\t' || c = '\n' || c = '\r' || c = '\x0b' || c = '\x0c'

def stripWs (s : List Char) : List Char :=
  ((s.dropWhile isPySpace).reverse.dropWhile isPySpace).reverse

def digitsToNat (ds : List Char) : ℕ :=
  ds.foldl (fun a c => 10 * a + (c.toNat - 48)) 0

/-- Parse an optional exponent suffix (`e`/`E`, optional sign, digits)
and apply it to the mantissa. -/
def parseExpPart (v : ℚ) : List Char → Option ℚ
  | [] => some v
  | e :: rest =>
    if e = 'e' || e = 'E' then
      let (neg, rest2) :=
        match rest with
        | '+' :: r => (false, r)
        | '-' :: r => (true, r)
        | r => (false, r)
      let (ds, rest3) := rest2.span isAsciiDigit
      if ds.isEmpty || !rest3.isEmpty then none
      else some (if neg then v / 10 ^ digitsToNat ds else v * 10 ^ digitsToNat ds)
    else none

/-- Parse the decimal body: digits, optional point, fractional digits. -/
def parseBody (cs : List Char) : Option ℚ :=
  let (ip, r1) := cs.span isAsciiDigit
  match r1 with
  | '.' :: r2 =>
    let (fp, r3) := r2.span isAsciiDigit
    if ip.isEmpty && fp.isEmpty then none
    else parseExpPart ((digitsToNat ip : ℚ) + (digitsToNat fp : ℚ) / 10 ^ fp.length) r3
  | _ =>
    if ip.isEmpty then none
    else parseExpPart (digitsToNat ip : ℚ) r1

/-- Model of Python `float(s)` for finite decimal literals; malformed
strings yield `none` (Python raises `ValueError`).  The special values
`inf` and `nan` are not rational and are modelled as failures. -/
def parseFloat (s : String) : Option ℚ :=
  match stripWs s.toList with
  | '+' :: rest => parseBody rest
  | '-' :: rest => (parseBody rest).map (fun q => -q)
  | rest => parseBody rest

/-! ### `analyze_price_data` (`backend/services/mcp_tools.py` lines 84-132) -/

/-- A JSON value as found in the `value` field of a price entry. -/
inductive PVal where
  | str (s : String)
  | num (q : ℚ)
  deriving DecidableEq, Repr

/-- One element of the `oil_data` list fed to `analyze_price_data`. -/
structure MEntry where
  date : String
  value : PVal
  deriving DecidableEq, Repr

/-- The numeric-coercion loop of `analyze_price_data`: string values that
fail `float()` are skipped, numeric values pass through. -/
def coerceValues : List MEntry → List ℚ
  | [] => []
  | e :: rest =>
    match e.value with
    | .str s =>
      match parseFloat s with
      | some q => q :: coerceValues rest
      | none => coerceValues rest
    | .num q => q :: coerceValues rest

/-- The statistics dictionary built by `analyze_price_data` (and by
`DataFetcher._calculate_statistics` in `app.py`).  The `volatility` entry
is modelled separately by `volatilityOf` because it is irrational; the
`range` key is spelled `rangeVal`. -/
structure Stats where
  min : ℚ
  max : ℚ
  mean : ℚ
  median : ℚ
  rangeVal : ℚ
  start_price : ℚ
  end_price : ℚ
  percent_change : ℚ
  deriving DecidableEq, Repr

/-- Return value of `analyze_price_data`. -/
structure Analysis where
  trend : String
  stats : Option Stats
  deriving DecidableEq, Repr

/-- The unrounded percent change `((last - first) / first) * 100`. -/
def pcRaw (vs : List ℚ) : ℚ := ((vs.getLastD 0 - vs.headD 0) / vs.headD 0) * 100

/-- The trend if-cascade of `analyze_price_data` (mirrored in
`app.py` `_generate_oil_price_response` and
`mcp_tools.format_fallback_response`). -/
def trendBucket (percent_change : ℚ) : String :=
  if 5 < percent_change then "strongly upward"
  else if 1 < percent_change then "moderately upward"
  else if percent_change < -5 then "strongly downward"
  else if percent_change < -1 then "moderately downward"
  else "relatively stable"

/-- `analyze_price_data` (`mcp_tools.py` lines 84-132).  A zero first
value makes Python raise `ZeroDivisionError`, modelled as `.error`. -/
def analyzePriceData (oil_data : List MEntry) : Except PyErr Analysis :=
  if oil_data.length < 2 then .ok ⟨"insufficient data", none⟩
  else
    let values := coerceValues oil_data
    if values = [] then .ok ⟨"invalid data", none⟩
    else if values.headD 0 = 0 then .error .zeroDivision
    else
      let pc := pcRaw values
      .ok ⟨trendBucket pc,
        some { min := listMin values, max := listMax values,
               mean := meanQ values, median := medianQ values,
               rangeVal := listMax values - listMin values,
               start_price := values.headD 0, end_price := values.getLastD 0,
               percent_change := round2 pc }⟩

/-! ### Dates (`datetime.date`) and the synthetic oil series -/

/-- A Python `datetime.date`, by components. -/
structure PyDate where
  year : ℕ
  month : ℕ
  day : ℕ
  deriving DecidableEq, Repr

def isLeapYear (y : ℕ) : Bool := y % 4 == 0 && (y % 100 != 0 || y % 400 == 0)

/-- Days in a month of the proleptic Gregorian calendar. -/
def monthDays (y m : ℕ) : ℕ :=
  match m with
  | 1 => 31 | 2 => if isLeapYear y then 29 else 28 | 3 => 31 | 4 => 30
  | 5 => 31 | 6 => 30 | 7 => 31 | 8 => 31 | 9 => 30 | 10 => 31
  | 11 => 30 | 12 => 31 | _ => 0

def daysBeforeMonth (y m : ℕ) : ℕ :=
  ((List.range (m - 1)).map (fun k => monthDays y (k + 1))).sum

/-- CPython `date.toordinal`: day number with 0001-01-01 as day 1.
All date arithmetic in the sources reduces to arithmetic on this value. -/
def toOrdinal (d : PyDate) : ℕ :=
  let py := d.year - 1
  py * 365 + py / 4 - py / 100 + py / 400 + daysBeforeMonth d.year d.month + d.day

/-- The range of dates `datetime.date` accepts (year 1 to 9999). -/
def validDate (d : PyDate) : Prop :=
  1 ≤ d.year ∧ d.year ≤ 9999 ∧ 1 ≤ d.month ∧ d.month ≤ 12 ∧
    1 ≤ d.day ∧ d.day ≤ monthDays d.year d.month

instance (d : PyDate) : Decidable (validDate d) := by
  unfold validDate; infer_instance

/-- Ordinal of `date.max` (9999-12-31); subtractions below `1` or beyond
this raise `OverflowError` in Python. -/
def maxPyOrdinal : ℕ := toOrdinal ⟨9999, 12, 31⟩

/-- One entry of the synthetic oil series; the entry date is kept as its
ordinal. -/
structure MockEntry where
  dateOrd : ℕ
  value : ℚ
  deriving DecidableEq, Repr

/-- `generate_mock_oil_data` (`backend/services/data.py` lines 20-38) and
`DataFetcher._generate_mock_oil_data` (`app.py` lines 440-459), after
parsing the two ISO dates: one entry per loop index `i` in
`range((end - start).days + 1)` at date `start + timedelta(days=i)` with
value `round(80.0 + (i % 10) * 0.1 + noise(i), 2)`.  The
`random.uniform(-0.5, 0.5)` call is the uninterpreted `noise` argument
(`data.py` additionally stringifies the value, which does not affect the
shape of the series). -/
def generateMockOilData (startOrd endOrd : ℕ) (noise : ℕ → ℚ) : List MockEntry :=
  let days : ℤ := (endOrd : ℤ) - (startOrd : ℤ) + 1
  (List.range days.toNat).map
    (fun i => ⟨startOrd + i, round2 (80 + (i % 10 : ℕ) * (1/10) + noise i)⟩)

/-- `fetch_oil_prices` (`data.py` lines 40-43) on the path where no
`EIA_API_KEY` is configured: it immediately returns the synthetic series
for the parsed dates — there is no error channel on this path. -/
def fetchOilPricesNoKey (start e : PyDate) (noise : ℕ → ℚ) : List MockEntry :=
  generateMockOilData (toOrdinal start) (toOrdinal e) noise

/-! ### Country fuel profiles (`COUNTRY_FUEL_DATA` in `app.py`,
`backend/services/mcp_tools.py`) -/

/-- One entry of `COUNTRY_FUEL_DATA` (the `notes` field is display-only
and omitted). -/
structure CountryCfg where
  tax_rate : ℚ
  vat : ℚ
  currency : String
  local_name : String
  common_fuels : List String
  price_factor : ℚ
  price_unit : String
  crude_conversion : ℚ
  deriving DecidableEq, Repr

def germanyCfg : CountryCfg :=
  { tax_rate := 65.45, vat := 19.0, currency := "EUR", local_name := "Germany",
    common_fuels := ["Diesel", "Super E10", "Super E5", "Super Plus"],
    price_factor := 1.15, price_unit := "€/liter", crude_conversion := 159 }

def usaCfg : CountryCfg :=
  { tax_rate := 18.4, vat := 0.0, currency := "USD", local_name := "United States",
    common_fuels := ["Regular Gasoline", "Premium Gasoline", "Diesel"],
    price_factor := 1.05, price_unit := "$/gallon", crude_conversion := 42 }

def ukCfg : CountryCfg :=
  { tax_rate := 57.95, vat := 20.0, currency := "GBP", local_name := "United Kingdom",
    common_fuels := ["Unleaded", "Premium Unleaded", "Diesel"],
    price_factor := 1.1, price_unit := "£/liter", crude_conversion := 159 }

/-- `COUNTRY_FUEL_DATA`, keyed by normalized country code. -/
def countryFuelData : List (String × CountryCfg) :=
  [("germany", germanyCfg), ("usa", usaCfg), ("uk", ukCfg)]

/-- Dictionary lookup (`COUNTRY_FUEL_DATA[country]` guarded by `in`). -/
def lookupCountry (c : String) : Option CountryCfg :=
  (countryFuelData.find? (fun p => p.1 == c)).map (·.2)

/-! ### Synthetic FX rates -/

/-- Helper for Python `s.split(",")`: first group and remaining groups. -/
def splitAux : List Char → (List Char × List (List Char))
  | [] => ([], [])
  | c :: rest =>
    let (g, gs) := splitAux rest
    if c = ',' then ([], g :: gs) else (c :: g, gs)

/-- Python `symbols.split(",")` (empty pieces are kept, as in Python). -/
def splitComma (s : String) : List String :=
  let (g, gs) := splitAux s.toList
  (g :: gs).map (fun l => String.mk l)

/-- Python `dict` lookup on a key/value sequence: the value of the last
binding of the key (later bindings overwrite earlier ones). -/
def dictGet (l : List (String × ℚ)) (k : String) : Option ℚ :=
  ((l.filter (fun p => p.1 == k)).getLast?).map (·.2)

/-- The enumerated comprehension of `generate_mock_fx_data`
(`backend/services/data.py` lines 116-119): EVERY requested symbol gets
`1.0 + i * 0.1`; the base currency is not excluded (the function does not
even receive it). -/
def mkRatesData : ℕ → List String → List (String × ℚ)
  | _, [] => []
  | i, s :: rest => (s, 1 + (i : ℚ) * (1/10)) :: mkRatesData (i + 1) rest

def generateMockFxData (symbols : String) : List (String × ℚ) :=
  mkRatesData 0 (splitComma symbols)

/-- `fetch_fx_rates` (`data.py` lines 121-124) on the path where no
`OPENEXCHANGERATES_APP_ID` is configured: returns the synthetic rates;
the `base` argument is ignored by the generator. -/
def fetchFxRatesNoKey (base symbols : String) : List (String × ℚ) :=
  generateMockFxData symbols

/-- The loop of `DataFetcher._generate_mock_fx_data` (`app.py` lines
526-541): symbols equal to the base are skipped, the index still counts
positions in the full request. -/
def mkRatesApp (base : String) : ℕ → List String → List (String × ℚ)
  | _, [] => []
  | i, s :: rest =>
    if s = base then mkRatesApp base (i + 1) rest
    else (s, 1 + (i : ℚ) * (1/10)) :: mkRatesApp base (i + 1) rest

def appGenerateMockFxData (symbols base : String) : List (String × ℚ) :=
  mkRatesApp base 0 (splitComma symbols)

/-! ### Secondary accessors (`mcp_tools.py` lines 421-429) -/

/-- Return shape of `get_oil_price`. -/
structure OilPriceOut where
  date : String
  value : Option PVal
  deriving DecidableEq, Repr

/-- `get_oil_price(date)` after the `fetch_oil_prices(date, date)` call
(the fetched series is the `data` argument): `data[0] if data else
{"date": date, "value": None}`. -/
def getOilPriceFrom (date : String) (data : List MEntry) : OilPriceOut :=
  match data with
  | [] => { date := date, value := none }
  | e :: _ => { date := e.date, value := some e.value }

/-- `get_fx_rate(symbol)` after the `fetch_fx_rates(symbols=symbol)` call:
`{symbol: rates.get(symbol)}`. -/
def getFxRateFrom (symbol : String) (rates : List (String × ℚ)) : String × Option ℚ :=
  (symbol, dictGet rates symbol)

/-! ### A small executable model of `re.search` as a boolean test

The intent patterns of `app.py` use only literals, character classes,
`\s+`, `(?:..|..)` groups, `?`, and stars.  `matchEnds r s` returns the
set of suffixes left after matching `r` against a prefix of `s`;
`searchRx` asks whether any suffix of the input admits a match, which is
exactly the boolean value of `re.search`. -/

inductive Rx where
  | eps
  | cls (p : Char → Bool)
  | seq (a b : Rx)
  | alt (a b : Rx)
  | starCls (p : Char → Bool)

/-- Suffixes reachable by consuming zero or more `p`-characters. -/
def clsSuffixes (p : Char → Bool) : List Char → List (List Char)
  | [] => [[]]
  | c :: rest =>
    (c :: rest) :: (if p c then clsSuffixes p rest else [])

/-- All suffixes left after matching the pattern against a prefix. -/
def matchEnds : Rx → List Char → List (List Char)
  | .eps, s => [s]
  | .cls _, [] => []
  | .cls p, c :: rest => if p c then [rest] else []
  | .seq a b, s => (matchEnds a s).flatMap (matchEnds b)
  | .alt a b, s => matchEnds a s ++ matchEnds b s
  | .starCls p, s => clsSuffixes p s

/-- Boolean value of `re.search(r, s)`: some suffix admits a match. -/
def searchRx (r : Rx) (s : List Char) : Bool :=
  s.tails.any (fun t => !(matchEnds r t).isEmpty)

/-- Literal string pattern. -/
def rlit (w : String) : Rx :=
  w.toList.foldr (fun c acc => .seq (.cls (fun d => d == c)) acc) .eps

/-- A pattern matching nothing, unit of alternation. -/
def rxNul : Rx := .cls (fun _ => false)

def altList (l : List Rx) : Rx := l.foldr .alt rxNul

def rxOpt (r : Rx) : Rx := .alt .eps r

/-- One-or-more repetitions of a character class. -/
def plusCls (p : Char → Bool) : Rx := .seq (.cls p) (.starCls p)

/-- Up to `n` repetitions of a subpattern.  For subpatterns that consume
at least one character this equals a true Kleene star once `n` reaches
the input length, which is how it is used below. -/
def starN (r : Rx) : ℕ → Rx
  | 0 => .eps
  | n + 1 => .alt .eps (.seq r (starN r n))

/-- Python `\s` (ASCII white space). -/
def spaceCls : Char → Bool := isPySpace

def spacePlus : Rx := plusCls spaceCls

def isAsciiLetter (c : Char) : Bool :=
  ('a' ≤ c && c ≤ 'z') || ('A' ≤ c && c ≤ 'Z')

def isLowerAlpha (c : Char) : Bool := 'a' ≤ c && c ≤ 'z'

/-- Python `str.lower()` restricted to ASCII. -/
def lowerChar (c : Char) : Char :=
  if 'A' ≤ c && c ≤ 'Z' then Char.ofNat (c.toNat + 32) else c

def lowerL (s : List Char) : List Char := s.map lowerChar

/-! ### Intent patterns (`INTENT_PATTERNS`, `PARAMETER_PATTERNS` in
`app.py` lines 83-113) -/

/-- Shape `X\s+pric(?:e|es|ing)` shared by five oil patterns. -/
def pricePat (w : String) : Rx :=
  .seq (rlit w) (.seq spacePlus (.seq (rlit "pric")
    (altList [rlit "e", rlit "es", rlit "ing"])))

def oilPatterns : List Rx :=
  [ pricePat "oil",
    .seq (rlit "crude") (.seq spacePlus (rlit "oil")),
    rlit "brent",
    pricePat "petroleum",
    pricePat "fuel",
    pricePat "gas",
    pricePat "petrol" ]

def ratePat : Rx := .seq (rlit "rat") (altList [rlit "e", rlit "es"])

def fxPatterns : List Rx :=
  [ .seq (altList [rlit "fx", rlit "foreign exchange", rlit "currency"])
      (.seq spacePlus ratePat),
    .seq (rlit "exchange") (.seq spacePlus ratePat),
    .seq (rlit "currency") (.seq spacePlus (rlit "conversion")) ]

def weatherPatterns : List Rx :=
  [ .seq (rlit "weather") (rxOpt (.seq spacePlus (rlit "forecast"))),
    rlit "temperature",
    altList [rlit "rain", rlit "snow", rlit "precipitation"],
    rlit "forecast" ]

/-- `PARAMETER_PATTERNS["location"]`:
`(?:in|at|for|of)\s+([A-Za-z][a-z]+(?:\s+[A-Za-z][a-z]+)*)`, with the
trailing star unrolled `n` times (`n` is instantiated with the input
length, where the unrolling is exact because each repetition of the
group consumes characters). -/
def locationRx (n : ℕ) : Rx :=
  .seq (altList [rlit "in", rlit "at", rlit "for", rlit "of"])
    (.seq spacePlus (.seq (.cls isAsciiLetter) (.seq (plusCls isLowerAlpha)
      (starN (.seq spacePlus (.seq (.cls isAsciiLetter) (plusCls isLowerAlpha))) n))))

/-- The keyword test `re.search(r"fuel|gas|petrol|price", query_lower)`
of the intent fallback. -/
def fuelKeywordRx : Rx := altList [rlit "fuel", rlit "gas", rlit "petrol", rlit "price"]

/-- `QueryProcessor._identify_intent` (`app.py` lines 206-222): the three
pattern groups in declaration order, then the location-plus-keyword
fallback, else `"unknown"`.  The location pattern runs on the original
query, the others on the lowercased query. -/
def identifyIntent (query : List Char) : String :=
  let query_lower := lowerL query
  if oilPatterns.any (fun r => searchRx r query_lower) then "oil_price"
  else if fxPatterns.any (fun r => searchRx r query_lower) then "fx_rates"
  else if weatherPatterns.any (fun r => searchRx r query_lower) then "weather"
  else if searchRx (locationRx query.length) query &&
          searchRx fuelKeywordRx query_lower then "oil_price"
  else "unknown"

/-! ### `parse_query_fallback` intent extraction (`mcp_tools.py`
lines 550-563) -/

/-- Substring containment, the Python `term in question_lower` test. -/
def startsWithL : List Char → List Char → Bool
  | [], _ => true
  | _ :: _, [] => false
  | c :: cs, d :: ds => c == d && startsWithL cs ds

def containsSub (s : List Char) (w : String) : Bool :=
  s.tails.any (fun t => startsWithL w.toList t)

def oilTerms : List String := ["oil", "crude", "price", "brent", "fuel", "gas", "petrol"]
def fxTerms : List String := ["fx", "exchange", "currency", "rate"]
def weatherTerms : List String := ["weather", "temperature", "rain", "forecast"]

/-- The intent cascade of `parse_query_fallback`: keyword groups tested by
substring containment on the lowercased question; when nothing matches the
intent DEFAULTS to `"oil_price"`. -/
def parseQueryFallbackIntent (question : List Char) : String :=
  let ql := lowerL question
  if oilTerms.any (fun w => containsSub ql w) then "oil_price"
  else if fxTerms.any (fun w => containsSub ql w) then "fx_rates"
  else if weatherTerms.any (fun w => containsSub ql w) then "weather"
  else "oil_price"

/-! ### Date-parameter patterns and the `days ago` branch of
`QueryProcessor.analyze_query` (`app.py` lines 107-159) -/

def rchr (c : Char) : Rx := .cls (fun d => d == c)

def digitRx : Rx := .cls isAsciiDigit

/-- `\d{4}` -/
def d4Rx : Rx := .seq digitRx (.seq digitRx (.seq digitRx digitRx))

/-- `\d{2}` -/
def d2Rx : Rx := .seq digitRx digitRx

/-- `\d{1,2}` -/
def d12Rx : Rx := .seq digitRx (rxOpt digitRx)

/-- `\d{2,4}` -/
def d24Rx : Rx := .seq digitRx (.seq digitRx (rxOpt (.seq digitRx (rxOpt digitRx))))

def monthLitRx : Rx :=
  altList (["Jan", "Feb", "Mar", "Apr", "May", "Jun",
            "Jul", "Aug", "Sep", "Oct", "Nov", "Dec"].map rlit)

/-- `\d{4}-\d{2}-\d{2}` -/
def isoDateRx : Rx := .seq d4Rx (.seq (rchr '-') (.seq d2Rx (.seq (rchr '-') d2Rx)))

/-- `\d{1,2}/\d{1,2}/\d{2,4}` -/
def slashDateRx : Rx := .seq d12Rx (.seq (rchr '/') (.seq d12Rx (.seq (rchr '/') d24Rx)))

/-- `(?:Jan|...|Dec)[a-z]*\.?\s+\d{4}` -/
def monthYearRx : Rx :=
  .seq monthLitRx (.seq (.starCls isLowerAlpha) (.seq (rxOpt (rchr '.'))
    (.seq spacePlus d4Rx)))

def rangeDateRx : Rx := altList [isoDateRx, slashDateRx, monthYearRx]

/-- `PARAMETER_PATTERNS["date_range"]`. -/
def dateRangeRx : Rx :=
  .seq (altList [rlit "from", rlit "between"]) (.seq spacePlus (.seq rangeDateRx
    (.seq spacePlus (.seq (altList [rlit "to", rlit "and", rlit "until", rlit "-"])
      (.seq spacePlus rangeDateRx)))))

/-- `(?:Jan|...)[a-z]*\.?\s+\d{1,2}(?:st|nd|rd|th)?,?\s+\d{4}` -/
def monthDayYearRx : Rx :=
  .seq monthLitRx (.seq (.starCls isLowerAlpha) (.seq (rxOpt (rchr '.'))
    (.seq spacePlus (.seq d12Rx (.seq (rxOpt (altList [rlit "st", rlit "nd", rlit "rd", rlit "th"]))
      (.seq (rxOpt (rchr ',')) (.seq spacePlus d4Rx)))))))

/-- `PARAMETER_PATTERNS["single_date"]`. -/
def singleDateRx : Rx :=
  .seq (altList [rlit "on", rlit "at", rlit "for"]) (.seq spacePlus
    (altList [isoDateRx, slashDateRx, monthDayYearRx]))

/-- What follows the digit group in `PARAMETER_PATTERNS["days_ago"]`:
`\s+days?\s+ago`. -/
def daysAgoTailRx : Rx :=
  .seq spacePlus (.seq (rlit "day") (.seq (rxOpt (rlit "s")) (.seq spacePlus (rlit "ago"))))

/-- `re.search(r"(\d+)\s+days?\s+ago", query).group(1)`: at the leftmost
position where the pattern matches, the (greedy, here maximal) digit run.
A shorter digit run can never succeed where the maximal one fails, since
a digit is not `\s`. -/
def findDaysAgo : List Char → Option (List Char)
  | [] => none
  | s@(_ :: rest) =>
    let dig := s.takeWhile isAsciiDigit
    if !dig.isEmpty && !(matchEnds daysAgoTailRx (s.dropWhile isAsciiDigit)).isEmpty
    then some dig
    else findDaysAgo rest

/-- The date arithmetic of the `days_ago` branch (`app.py` lines 153-159):
`end_date = date.today(); start_date = end_date - timedelta(days=days)`.
`timedelta` rejects magnitudes above 999999999 days and `date`
subtraction rejects results before 0001-01-01; both raise
`OverflowError`. -/
def daysAgoDates (todayOrd days : ℕ) : Except PyErr (ℕ × ℕ) :=
  if 999999999 < days then .error .overflowError
  else if (todayOrd : ℤ) - (days : ℤ) < 1 then .error .overflowError
  else .ok (todayOrd - days, todayOrd)

/-- The `days_ago` branch of `analyze_query`, from the raw query:
extraction (`_extract_parameters`) followed by the date arithmetic.
`none` when the pattern does not occur. -/
def analyzeDaysAgoBranch (todayOrd : ℕ) (query : List Char) :
    Option (Except PyErr (ℕ × ℕ)) :=
  (findDaysAgo query).map (fun ds => daysAgoDates todayOrd (digitsToNat ds))

/-! ### Retail price conversion -/

/-- Result record of `DataFetcher._compute_retail_price` (`app.py`). -/
structure RetailInfo where
  price : ℚ
  unit : String
  country : String
  common_fuel : String
  currency : String
  deriving DecidableEq, Repr

/-- `DataFetcher._compute_retail_price` (`app.py` lines 329-356).
No FX rate is applied on this path; the caller only records the FX
rate alongside the result. -/
def computeRetailPrice (brent_price_usd : ℚ) (country : String) : Option RetailInfo :=
  match lookupCountry country with
  | none => none
  | some cfg =>
    let price_local := (brent_price_usd * cfg.price_factor) / cfg.crude_conversion
    let price_local := price_local * (1 + cfg.tax_rate / 100)
    let price_local := price_local * (1 + cfg.vat / 100)
    some { price := round2 price_local, unit := cfg.price_unit,
           country := cfg.local_name,
           common_fuel := cfg.common_fuels.headD "Fuel",
           currency := cfg.currency }

/-- The retail-price computation of `backend/main.py` `fuel_price`
(lines 138-146) and `backend/services/mcp_tools.py` (`ask_llm`,
`process_market_query`): identical to `_compute_retail_price` but the
explicit FX rate is multiplied in before rounding. -/
def retailPriceWithFx (latest_price_usd : ℚ) (cfg : CountryCfg) (fx_rate : ℚ) : ℚ :=
  let price_local := (latest_price_usd * cfg.price_factor) / cfg.crude_conversion
  let price_local := price_local * (1 + cfg.tax_rate / 100)
  let price_local := price_local * (1 + cfg.vat / 100)
  let price_local := price_local * fx_rate
  round2 price_local


/-! ## Helper lemmas -/

theorem roundHalfEven_nonneg {q : ℚ} (h : 0 ≤ q) : 0 ≤ roundHalfEven q := by
  unfold roundHalfEven
  have hfl : (0:ℤ) ≤ ⌊q⌋ := Int.floor_nonneg.mpr h
  dsimp only
  split_ifs <;> omega

theorem roundHalfEven_nonpos {q : ℚ} (h : q ≤ 0) : roundHalfEven q ≤ 0 := by
  unfold roundHalfEven
  have hfl : ⌊q⌋ ≤ 0 := by
    rcases lt_or_eq_of_le h with h1 | h1
    · exact le_of_lt (by exact_mod_cast Int.floor_lt.mpr (by simpa using h1))
    · simp [h1]
  have hfr : q - (⌊q⌋ : ℚ) < 1 := by
    have := Int.sub_one_lt_floor q
    have h2 := Int.lt_floor_add_one q
    linarith
  dsimp only
  split_ifs with h1 h2 h3
  · omega
  · -- here 1/2 < q - ⌊q⌋, so ⌊q⌋ < q ≤ 0, hence ⌊q⌋ ≤ -1 and ⌊q⌋ + 1 ≤ 0
    have hlt : (⌊q⌋ : ℚ) < q := by linarith
    have : ⌊q⌋ < 0 := by
      by_contra hc
      push_neg at hc
      have : (0:ℚ) ≤ (⌊q⌋ : ℚ) := by exact_mod_cast hc
      linarith
    omega
  · omega
  · -- tie case: q - ⌊q⌋ = 1/2 exactly, so ⌊q⌋ < q ≤ 0
    have hlt : (⌊q⌋ : ℚ) < q := by
      have : (1:ℚ)/2 ≤ q - ⌊q⌋ := le_of_not_lt h1
      linarith
    have : ⌊q⌋ < 0 := by
      by_contra hc
      push_neg at hc
      have : (0:ℚ) ≤ (⌊q⌋ : ℚ) := by exact_mod_cast hc
      linarith
    omega

theorem round2_nonneg {q : ℚ} (h : 0 ≤ q) : 0 ≤ round2 q := by
  unfold round2
  have : (0:ℚ) ≤ (roundHalfEven (q * 100) : ℚ) := by
    exact_mod_cast roundHalfEven_nonneg (by positivity)
  positivity

theorem round2_nonpos {q : ℚ} (h : q ≤ 0) : round2 q ≤ 0 := by
  unfold round2
  have h100 : q * 100 ≤ 0 := by nlinarith
  have : (roundHalfEven (q * 100) : ℚ) ≤ 0 := by
    exact_mod_cast roundHalfEven_nonpos h100
  have h2 : (0:ℚ) < 100 := by norm_num
  exact div_nonpos_of_nonpos_of_nonneg this (by norm_num)

/-- Helper for evaluating `roundHalfEven` when the fractional part is
below one half. -/
theorem roundHalfEven_eq_down (q : ℚ) (n : ℤ) (h1 : (n:ℚ) ≤ q)
    (h2 : q - n < 1/2) : roundHalfEven q = n := by
  have hfl : ⌊q⌋ = n := by
    apply Int.floor_eq_iff.mpr
    constructor
    · exact h1
    · push_cast; linarith
  unfold roundHalfEven
  simp only [hfl]
  split_ifs with hc1 hc2 <;> first | rfl | linarith

/-- Helper for evaluating `roundHalfEven` when the fractional part is
above one half. -/
theorem roundHalfEven_eq_up (q : ℚ) (n : ℤ) (h1 : (n:ℚ) ≤ q)
    (h2 : 1/2 < q - n) (h3 : q < (n:ℚ) + 1) : roundHalfEven q = n + 1 := by
  have hfl : ⌊q⌋ = n := by
    apply Int.floor_eq_iff.mpr
    constructor
    · exact h1
    · push_cast; linarith
  unfold roundHalfEven
  simp only [hfl]
  split_ifs with hc1 hc2 <;> first | rfl | linarith

/-- Evaluate `round2` when `q * 100` has fractional part below one half. -/
theorem round2_eq_down (q : ℚ) (n : ℤ) (h1 : (n:ℚ) ≤ q * 100)
    (h2 : q * 100 - n < 1/2) : round2 q = (n:ℚ) / 100 := by
  unfold round2
  rw [roundHalfEven_eq_down (q * 100) n h1 h2]

/-- Evaluate `round2` when `q * 100` has fractional part above one half. -/
theorem round2_eq_up (q : ℚ) (n : ℤ) (h1 : (n:ℚ) ≤ q * 100)
    (h2 : 1/2 < q * 100 - n) (h3 : q * 100 < (n:ℚ) + 1) :
    round2 q = ((n:ℚ) + 1) / 100 := by
  unfold round2
  rw [roundHalfEven_eq_up (q * 100) n h1 h2 h3]
  push_cast
  ring

theorem round2_zero : round2 0 = 0 := by
  rw [round2_eq_down 0 0 (by norm_num) (by norm_num)]
  norm_num

/-- Rounding an integer-valued rational changes nothing. -/
theorem round2_int (n : ℤ) : round2 (n:ℚ) = (n:ℚ) := by
  rw [round2_eq_down (n:ℚ) (n * 100) (by push_cast; ring_nf; rfl)
    (by push_cast; ring_nf; norm_num)]
  push_cast
  ring

theorem roundHalfEvenR_nonneg {x : ℝ} (h : 0 ≤ x) : 0 ≤ roundHalfEvenR x := by
  unfold roundHalfEvenR
  have hfl : (0:ℤ) ≤ ⌊x⌋ := Int.floor_nonneg.mpr h
  dsimp only
  split_ifs <;> omega

theorem round2R_nonneg {x : ℝ} (h : 0 ≤ x) : 0 ≤ round2R x := by
  unfold round2R
  have : (0:ℝ) ≤ (roundHalfEvenR (x * 100) : ℝ) := by
    exact_mod_cast roundHalfEvenR_nonneg (by positivity)
  positivity

/-- The reported volatility is never negative. -/
theorem volatilityOf_nonneg (values : List ℚ) : 0 ≤ volatilityOf values := by
  unfold volatilityOf
  split_ifs
  · exact round2R_nonneg (Real.sqrt_nonneg _)
  · exact le_refl 0

theorem listMin_le {l : List ℚ} {x : ℚ} (hx : x ∈ l) : listMin l ≤ x := by
  induction l with
  | nil => cases hx
  | cons a t ih =>
    cases t with
    | nil =>
      rcases List.mem_cons.mp hx with h | h
      · simp [listMin, h]
      · cases h
    | cons b t2 =>
      simp only [listMin]
      rcases List.mem_cons.mp hx with h | h
      · subst h; exact min_le_left _ _
      · exact le_trans (min_le_right _ _) (ih h)

theorem le_listMax {l : List ℚ} {x : ℚ} (hx : x ∈ l) : x ≤ listMax l := by
  induction l with
  | nil => cases hx
  | cons a t ih =>
    cases t with
    | nil =>
      rcases List.mem_cons.mp hx with h | h
      · simp [listMax, h]
      · cases h
    | cons b t2 =>
      simp only [listMax]
      rcases List.mem_cons.mp hx with h | h
      · subst h; exact le_max_left _ _
      · exact le_trans (ih h) (le_max_right _ _)

theorem listMin_mul_le_sum {l : List ℚ} (h : l ≠ []) :
    listMin l * l.length ≤ l.sum := by
  induction l with
  | nil => cases h rfl
  | cons a t ih =>
    cases t with
    | nil => simp [listMin]
    | cons b t2 =>
      have ht : (b :: t2) ≠ [] := by simp
      have ihs := ih ht
      have hs : (a :: b :: t2).sum = a + (b :: t2).sum := rfl
      have hl : (((a :: b :: t2).length : ℚ)) = ((b :: t2).length : ℚ) + 1 := by
        push_cast [List.length_cons]
        ring
      simp only [listMin]
      rw [hs, hl]
      have hmin1 : min a (listMin (b :: t2)) ≤ a := min_le_left _ _
      have hmin2 : min a (listMin (b :: t2)) ≤ listMin (b :: t2) := min_le_right _ _
      have hlen : (0:ℚ) ≤ ((b :: t2).length : ℚ) := by positivity
      have hstep : min a (listMin (b :: t2)) * ((b :: t2).length : ℚ)
          ≤ listMin (b :: t2) * ((b :: t2).length : ℚ) :=
        mul_le_mul_of_nonneg_right hmin2 hlen
      have hexp : min a (listMin (b :: t2)) * (((b :: t2).length : ℚ) + 1)
          = min a (listMin (b :: t2)) * ((b :: t2).length : ℚ)
            + min a (listMin (b :: t2)) := by ring
      rw [hexp]
      linarith

theorem sum_le_listMax_mul {l : List ℚ} (h : l ≠ []) :
    l.sum ≤ listMax l * l.length := by
  induction l with
  | nil => cases h rfl
  | cons a t ih =>
    cases t with
    | nil => simp [listMax]
    | cons b t2 =>
      have ht : (b :: t2) ≠ [] := by simp
      have ihs := ih ht
      have hs : (a :: b :: t2).sum = a + (b :: t2).sum := rfl
      have hl : (((a :: b :: t2).length : ℚ)) = ((b :: t2).length : ℚ) + 1 := by
        push_cast [List.length_cons]
        ring
      simp only [listMax]
      rw [hs, hl]
      have hmax1 : a ≤ max a (listMax (b :: t2)) := le_max_left _ _
      have hmax2 : listMax (b :: t2) ≤ max a (listMax (b :: t2)) := le_max_right _ _
      have hlen : (0:ℚ) ≤ ((b :: t2).length : ℚ) := by positivity
      have hstep : listMax (b :: t2) * ((b :: t2).length : ℚ)
          ≤ max a (listMax (b :: t2)) * ((b :: t2).length : ℚ) :=
        mul_le_mul_of_nonneg_right hmax2 hlen
      have hexp : max a (listMax (b :: t2)) * (((b :: t2).length : ℚ) + 1)
          = max a (listMax (b :: t2)) * ((b :: t2).length : ℚ)
            + max a (listMax (b :: t2)) := by ring
      rw [hexp]
      linarith

theorem listMin_le_meanQ {l : List ℚ} (h : l ≠ []) : listMin l ≤ meanQ l := by
  have hn : (0:ℚ) < l.length := by
    cases l with
    | nil => cases h rfl
    | cons a t => exact_mod_cast Nat.succ_pos t.length
  rw [meanQ, le_div_iff hn]
  exact listMin_mul_le_sum h

theorem meanQ_le_listMax {l : List ℚ} (h : l ≠ []) : meanQ l ≤ listMax l := by
  have hn : (0:ℚ) < l.length := by
    cases l with
    | nil => cases h rfl
    | cons a t => exact_mod_cast Nat.succ_pos t.length
  rw [meanQ, div_le_iff hn]
  exact sum_le_listMax_mul h

theorem mem_insortA {x a : ℚ} {l : List ℚ} :
    a ∈ insortA x l ↔ a = x ∨ a ∈ l := by
  induction l with
  | nil => simp [insortA]
  | cons y ys ih =>
    simp only [insortA]
    split_ifs with hc
    · simp only [List.mem_cons]
    · simp only [List.mem_cons, ih]
      tauto

theorem mem_sortQ {a : ℚ} {l : List ℚ} : a ∈ sortQ l ↔ a ∈ l := by
  induction l with
  | nil => simp [sortQ]
  | cons x xs ih =>
    simp only [sortQ, mem_insortA, List.mem_cons, ih]

theorem length_insortA (x : ℚ) (l : List ℚ) :
    (insortA x l).length = l.length + 1 := by
  induction l with
  | nil => simp [insortA]
  | cons y ys ih =>
    simp only [insortA]
    split_ifs with hc
    · simp
    · simp [ih]

theorem length_sortQ (l : List ℚ) : (sortQ l).length = l.length := by
  induction l with
  | nil => simp [sortQ]
  | cons x xs ih => simp [sortQ, length_insortA, ih]

theorem getD_mem {l : List ℚ} {i : ℕ} (h : i < l.length) : l.getD i 0 ∈ l := by
  induction l generalizing i with
  | nil => simp at h
  | cons a t ih =>
    cases i with
    | zero => simp
    | succ j =>
      simp only [List.getD_cons_succ, List.mem_cons]
      exact Or.inr (ih (by simpa using h))

theorem medianQ_bounds {l : List ℚ} (h : l ≠ []) :
    listMin l ≤ medianQ l ∧ medianQ l ≤ listMax l := by
  have hlen : 1 ≤ l.length := by
    cases l with
    | nil => cases h rfl
    | cons a t => simp
  have hslen : (sortQ l).length = l.length := length_sortQ l
  unfold medianQ
  dsimp only
  split_ifs with hodd
  · have hi : l.length / 2 < (sortQ l).length := by omega
    have hmem : (sortQ l).getD ((sortQ l).length / 2) 0 ∈ l := by
      rw [hslen]
      exact mem_sortQ.mp (getD_mem (by omega))
    exact ⟨listMin_le hmem, le_listMax hmem⟩
  · have heven : (sortQ l).length % 2 = 0 := by omega
    have h2 : 2 ≤ (sortQ l).length := by omega
    have hmem1 : (sortQ l).getD ((sortQ l).length / 2 - 1) 0 ∈ l := by
      rw [hslen]
      exact mem_sortQ.mp (getD_mem (by omega))
    have hmem2 : (sortQ l).getD ((sortQ l).length / 2) 0 ∈ l := by
      rw [hslen]
      exact mem_sortQ.mp (getD_mem (by omega))
    constructor
    · have a1 := listMin_le hmem1
      have a2 := listMin_le hmem2
      linarith
    · have a1 := le_listMax hmem1
      have a2 := le_listMax hmem2
      linarith

theorem any_eq_false_of_all_not {α} (l : List α) (f : α → Bool)
    (h : l.all (fun x => !f x) = true) : l.any f = false := by
  simp only [List.all_eq_true, Bool.not_eq_true'] at h
  simp only [List.any_eq_false]
  intro x hx
  simp [h x hx]

/-- Which bucket `trendBucket` returns, as interval conditions: the
boundary values 5, 1, -1, -5 land in the lesser bucket. -/
theorem trendBucket_spec (pc : ℚ) :
    (trendBucket pc = "strongly upward" ↔ 5 < pc) ∧
    (trendBucket pc = "moderately upward" ↔ (1 < pc ∧ pc ≤ 5)) ∧
    (trendBucket pc = "strongly downward" ↔ pc < -5) ∧
    (trendBucket pc = "moderately downward" ↔ (-5 ≤ pc ∧ pc < -1)) ∧
    (trendBucket pc = "relatively stable" ↔ (-1 ≤ pc ∧ pc ≤ 1)) := by
  unfold trendBucket
  split_ifs with h1 h2 h3 h4 <;>
    refine ⟨?_, ?_, ?_, ?_, ?_⟩ <;> simp_all <;> intros <;> linarith

/-- When the input has at least two entries, at least one coerced value,
and a nonzero first value, `analyze_price_data` succeeds with the trend
bucket of the unrounded percent change and the statistics record. -/
theorem analyzePriceData_eq (series : List MEntry) (h2 : ¬ series.length < 2)
    (hvs : coerceValues series ≠ []) (hh : ¬ (coerceValues series).headD 0 = 0) :
    analyzePriceData series = .ok ⟨trendBucket (pcRaw (coerceValues series)),
      some { min := listMin (coerceValues series),
             max := listMax (coerceValues series),
             mean := meanQ (coerceValues series),
             median := medianQ (coerceValues series),
             rangeVal := listMax (coerceValues series) - listMin (coerceValues series),
             start_price := (coerceValues series).headD 0,
             end_price := (coerceValues series).getLastD 0,
             percent_change := round2 (pcRaw (coerceValues series)) }⟩ := by
  simp only [analyzePriceData]
  rw [if_neg h2, if_neg hvs, if_neg hh]

theorem mem_mkRatesData {p : String × ℚ} :
    ∀ {i : ℕ} {syms : List String}, p ∈ mkRatesData i syms → p.1 ∈ syms := by
  intro i syms
  induction syms generalizing i with
  | nil => intro h; simp [mkRatesData] at h
  | cons s rest ih =>
    intro h
    simp only [mkRatesData, List.mem_cons] at h
    rcases h with h | h
    · simp [h]
    · exact List.mem_cons_of_mem _ (ih h)

theorem mem_mkRatesApp {base : String} {p : String × ℚ} :
    ∀ {i : ℕ} {syms : List String},
      p ∈ mkRatesApp base i syms → p.1 ∈ syms ∧ p.1 ≠ base := by
  intro i syms
  induction syms generalizing i with
  | nil => intro h; simp [mkRatesApp] at h
  | cons s rest ih =>
    intro h
    simp only [mkRatesApp] at h
    split_ifs at h with hbase
    · obtain ⟨h1, h2⟩ := ih h
      exact ⟨List.mem_cons_of_mem _ h1, h2⟩
    · rcases List.mem_cons.mp h with h | h
      · refine ⟨by simp [h], ?_⟩
        rw [h]
        exact hbase
      · obtain ⟨h1, h2⟩ := ih h
        exact ⟨List.mem_cons_of_mem _ h1, h2⟩

theorem dictGet_eq_none_of (l : List (String × ℚ)) (k : String)
    (h : ∀ p ∈ l, p.1 ≠ k) : dictGet l k = none := by
  unfold dictGet
  have hf : l.filter (fun p => p.1 == k) = [] := by
    rw [List.filter_eq_nil]
    intro p hp
    simpa using h p hp
  rw [hf]
  rfl

theorem dictGet_cons_self (s : String) (r : ℚ) (l : List (String × ℚ))
    (h : ∀ p ∈ l, p.1 ≠ s) : dictGet ((s, r) :: l) s = some r := by
  unfold dictGet
  rw [List.filter_cons]
  have hf : l.filter (fun p => p.1 == s) = [] := by
    rw [List.filter_eq_nil]
    intro p hp
    simpa using h p hp
  simp [hf]

theorem dictGet_cons_ne (s k : String) (r : ℚ) (l : List (String × ℚ))
    (h : s ≠ k) : dictGet ((s, r) :: l) k = dictGet l k := by
  unfold dictGet
  rw [List.filter_cons]
  simp [h]

theorem dictGet_mkRatesData {syms : List String} (hnd : syms.Nodup) :
    ∀ (i j : ℕ) (hj : j < syms.length),
      dictGet (mkRatesData i syms) (syms.get ⟨j, hj⟩)
        = some (1 + ((i + j : ℕ) : ℚ) * (1/10)) := by
  induction syms with
  | nil => intro i j hj; simp at hj
  | cons s rest ih =>
    intro i j hj
    obtain ⟨hs, hnd2⟩ := List.nodup_cons.mp hnd
    cases j with
    | zero =>
      have hks : ∀ p ∈ mkRatesData (i + 1) rest, p.1 ≠ s := by
        intro p hp hcon
        exact hs (hcon ▸ mem_mkRatesData hp)
      show dictGet ((s, 1 + (i : ℚ) * (1/10)) :: mkRatesData (i + 1) rest) s
          = some (1 + ((i + 0 : ℕ) : ℚ) * (1/10))
      rw [dictGet_cons_self _ _ _ hks]
      norm_num
    | succ j2 =>
      have hj2 : j2 < rest.length := by simpa using hj
      have hk : s ≠ rest.get ⟨j2, hj2⟩ := by
        intro hcon
        exact hs (hcon ▸ rest.get_mem _ _)
      show dictGet ((s, 1 + (i : ℚ) * (1/10)) :: mkRatesData (i + 1) rest)
          (rest.get ⟨j2, hj2⟩) = some (1 + ((i + (j2 + 1) : ℕ) : ℚ) * (1/10))
      rw [dictGet_cons_ne _ _ _ _ hk, ih hnd2 (i + 1) j2 hj2]
      congr 1
      push_cast
      ring

theorem dictGet_mkRatesApp {base : String} {syms : List String} (hnd : syms.Nodup) :
    ∀ (i j : ℕ) (hj : j < syms.length), syms.get ⟨j, hj⟩ ≠ base →
      dictGet (mkRatesApp base i syms) (syms.get ⟨j, hj⟩)
        = some (1 + ((i + j : ℕ) : ℚ) * (1/10)) := by
  induction syms with
  | nil => intro i j hj; simp at hj
  | cons s rest ih =>
    intro i j hj hkb
    obtain ⟨hs, hnd2⟩ := List.nodup_cons.mp hnd
    cases j with
    | zero =>
      have hsb : s ≠ base := hkb
      have hks : ∀ p ∈ mkRatesApp base (i + 1) rest, p.1 ≠ s := by
        intro p hp hcon
        exact hs (hcon ▸ (mem_mkRatesApp hp).1)
      show dictGet (mkRatesApp base i (s :: rest)) s
          = some (1 + ((i + 0 : ℕ) : ℚ) * (1/10))
      rw [show mkRatesApp base i (s :: rest)
            = (s, 1 + (i : ℚ) * (1/10)) :: mkRatesApp base (i + 1) rest by
          simp [mkRatesApp, hsb]]
      rw [dictGet_cons_self _ _ _ hks]
      norm_num
    | succ j2 =>
      have hj2 : j2 < rest.length := by simpa using hj
      have hk : s ≠ rest.get ⟨j2, hj2⟩ := by
        intro hcon
        exact hs (hcon ▸ rest.get_mem _ _)
      have hrec := ih hnd2 (i + 1) j2 hj2 hkb
      show dictGet (mkRatesApp base i (s :: rest)) (rest.get ⟨j2, hj2⟩)
          = some (1 + ((i + (j2 + 1) : ℕ) : ℚ) * (1/10))
      by_cases hsb : s = base
      · rw [show mkRatesApp base i (s :: rest) = mkRatesApp base (i + 1) rest by
            simp [mkRatesApp, hsb]]
        rw [hrec]
        congr 1
        push_cast
        ring
      · rw [show mkRatesApp base i (s :: rest)
              = (s, 1 + (i : ℚ) * (1/10)) :: mkRatesApp base (i + 1) rest by
            simp [mkRatesApp, hsb]]
        rw [dictGet_cons_ne _ _ _ _ hk, hrec]
        congr 1
        push_cast
        ring

theorem dictGet_mkRatesApp_base {base : String} {i : ℕ} {syms : List String} :
    dictGet (mkRatesApp base i syms) base = none :=
  dictGet_eq_none_of _ _ (fun p hp => (mem_mkRatesApp hp).2)

theorem coerceValues_all_num {series : List MEntry}
    (h : ∀ e ∈ series, ∃ q, e.value = PVal.num q) :
    (coerceValues series).length = series.length := by
  induction series with
  | nil => rfl
  | cons e rest ih =>
    obtain ⟨q, hq⟩ := h e (List.mem_cons_self e rest)
    have hrest := ih (fun x hx => h x (List.mem_cons_of_mem _ hx))
    simp only [coerceValues, hq, List.length_cons, hrest]

/-! ## Claim theorems -/

/-- C1: for every benchmark USD price, supported country profile and FX
rate, the retail-price conversion computes
`local = benchmark * price_factor / crude_conversion`, multiplies by
`1 + tax_rate/100`, then by `1 + vat/100`, then (in the paths receiving
an explicit FX rate) by the FX rate, and rounds to 2 decimals; for
benchmark 80 with the usa profile and FX rate 1 the result is 2.37. -/
theorem claim_C1_retail_price (brent fx : ℚ) (name : String) (cfg : CountryCfg)
    (h : lookupCountry name = some cfg) :
    retailPriceWithFx brent cfg fx
      = round2 (brent * cfg.price_factor / cfg.crude_conversion
          * (1 + cfg.tax_rate / 100) * (1 + cfg.vat / 100) * fx)
    ∧ (computeRetailPrice brent name).map (·.price)
      = some (round2 (brent * cfg.price_factor / cfg.crude_conversion
          * (1 + cfg.tax_rate / 100) * (1 + cfg.vat / 100)))
    ∧ retailPriceWithFx 80 usaCfg 1 = 237/100
    ∧ (computeRetailPrice 80 "usa").map (·.price) = some (237/100) := by
  have husa : (80:ℚ) * usaCfg.price_factor / usaCfg.crude_conversion
      * (1 + usaCfg.tax_rate / 100) * (1 + usaCfg.vat / 100) = 296/125 := by
    norm_num [usaCfg]
  have hround : round2 (296/125 : ℚ) = 237/100 := by
    rw [round2_eq_up (296/125) 236 (by norm_num) (by norm_num) (by norm_num)]
    norm_num
  refine ⟨rfl, ?_, ?_, ?_⟩
  · simp only [computeRetailPrice]
    rw [h]
    rfl
  · calc retailPriceWithFx 80 usaCfg 1
        = round2 ((80:ℚ) * usaCfg.price_factor / usaCfg.crude_conversion
            * (1 + usaCfg.tax_rate / 100) * (1 + usaCfg.vat / 100) * 1) := rfl
      _ = round2 (296/125) := by rw [mul_one, husa]
      _ = 237/100 := hround
  · calc (computeRetailPrice 80 "usa").map (·.price)
        = some (round2 ((80:ℚ) * usaCfg.price_factor / usaCfg.crude_conversion
            * (1 + usaCfg.tax_rate / 100) * (1 + usaCfg.vat / 100))) := rfl
      _ = some (237/100) := by rw [husa, hround]

/-- Witness for C1 at the usa profile: the lookup hypothesis holds and
the worked example evaluates to 2.37. -/
theorem claim_C1_witness :
    lookupCountry "usa" = some usaCfg ∧ retailPriceWithFx 80 usaCfg 1 = 237/100 :=
  ⟨rfl, (claim_C1_retail_price 80 1 "usa" usaCfg rfl).2.2.1⟩

/-- C4: for valid ISO dates with start ≤ end, the synthetic oil-price
series has one entry per calendar day from start to end inclusive: its
length is the day difference plus one and the i-th entry carries the
ordinal of `start + i` days. -/
theorem claim_C4_mock_series_days (s e : PyDate) (noise : ℕ → ℚ)
    (hs : validDate s) (he : validDate e) (hle : toOrdinal s ≤ toOrdinal e) :
    (fetchOilPricesNoKey s e noise).length = toOrdinal e - toOrdinal s + 1
    ∧ ∀ i (hi : i < (fetchOilPricesNoKey s e noise).length),
        ((fetchOilPricesNoKey s e noise).get ⟨i, hi⟩).dateOrd = toOrdinal s + i := by
  have hlen : (fetchOilPricesNoKey s e noise).length
      = ((toOrdinal e : ℤ) - (toOrdinal s : ℤ) + 1).toNat := by
    unfold fetchOilPricesNoKey generateMockOilData
    simp
  constructor
  · rw [hlen]; omega
  · intro i hi
    unfold fetchOilPricesNoKey generateMockOilData
    simp [List.get_eq_getElem]

/-- Witness for C4: four calendar days from 2024-02-28 to 2024-03-02
(over the leap day). -/
theorem claim_C4_witness :
    (fetchOilPricesNoKey ⟨2024, 2, 28⟩ ⟨2024, 3, 2⟩ (fun _ => 0)).length
      = toOrdinal ⟨2024, 3, 2⟩ - toOrdinal ⟨2024, 2, 28⟩ + 1 :=
  (claim_C4_mock_series_days ⟨2024, 2, 28⟩ ⟨2024, 3, 2⟩ (fun _ => 0)
    (by decide) (by decide) (by decide)).1

/-- C5 counterexample: with valid dates where start is one day after end,
the no-credential fetch path returns an EMPTY list as a successful result
(there is no error value anywhere in its return type). -/
theorem claim_C5_counterexample :
    validDate ⟨2024, 1, 2⟩ ∧ validDate ⟨2024, 1, 1⟩ ∧
    fetchOilPricesNoKey ⟨2024, 1, 2⟩ ⟨2024, 1, 1⟩ (fun _ => 0) = [] :=
  ⟨by decide, by decide, rfl⟩

/-- C5 amended: on the no-credential path the fetched series is non-empty
whenever start ≤ end; an empty series (start after end, or an upstream
response with no rows) is returned as a plain empty list, never as an
explicit error value. -/
theorem claim_C5_mock_nonempty (s e : PyDate) (noise : ℕ → ℚ)
    (hs : validDate s) (he : validDate e) (hle : toOrdinal s ≤ toOrdinal e) :
    fetchOilPricesNoKey s e noise ≠ [] := by
  have hlen : (fetchOilPricesNoKey s e noise).length
      = ((toOrdinal e : ℤ) - (toOrdinal s : ℤ) + 1).toNat := by
    unfold fetchOilPricesNoKey generateMockOilData
    simp
  intro hcon
  rw [hcon] at hlen
  simp only [List.length_nil] at hlen
  omega

/-- Witness for C5 amended: May 2023 window. -/
theorem claim_C5_witness :
    fetchOilPricesNoKey ⟨2023, 5, 1⟩ ⟨2023, 5, 31⟩ (fun _ => 0) ≠ [] :=
  claim_C5_mock_nonempty ⟨2023, 5, 1⟩ ⟨2023, 5, 31⟩ (fun _ => 0)
    (by decide) (by decide) (by decide)

/-- C10: the secondary accessors signal an absent datum with a `None`
value: `get_oil_price` returns `{date, value: None}` on an empty fetched
series and `get_fx_rate` returns `{symbol: None}` when the symbol is
missing from the rates mapping. -/
theorem claim_C10_absent_accessors (date : String) (data : List MEntry)
    (hdata : data = []) (symbol : String) (rates : List (String × ℚ))
    (hrate : dictGet rates symbol = none) :
    getOilPriceFrom date data = { date := date, value := none }
    ∧ getFxRateFrom symbol rates = (symbol, none) := by
  subst hdata
  exact ⟨rfl, by simp [getFxRateFrom, hrate]⟩

/-- Witness for C10 at an empty series and an empty rates mapping. -/
theorem claim_C10_witness :
    getOilPriceFrom "2024-01-01" [] = { date := "2024-01-01", value := none }
    ∧ getFxRateFrom "EUR" [] = ("EUR", none) :=
  claim_C10_absent_accessors "2024-01-01" [] rfl "EUR" [] rfl

/-- C2: for every numeric series of length ≥ 2 on which the analysis
succeeds, the trend bucket is determined by the (unrounded) percent
change with strict inequalities, and the boundary values 5, 1, -1, -5
each fall into the lesser category. -/
theorem claim_C2_trend_thresholds (series : List MEntry)
    (hnum : ∀ e ∈ series, ∃ q, e.value = PVal.num q)
    (h2 : 2 ≤ series.length)
    (hh : (coerceValues series).headD 0 ≠ 0) :
    ((analyzePriceData series).toOption.map Analysis.trend
        = some (trendBucket (pcRaw (coerceValues series)))
      ∧ (trendBucket (pcRaw (coerceValues series)) = "strongly upward"
          ↔ 5 < pcRaw (coerceValues series))
      ∧ (trendBucket (pcRaw (coerceValues series)) = "moderately upward"
          ↔ (1 < pcRaw (coerceValues series) ∧ pcRaw (coerceValues series) ≤ 5))
      ∧ (trendBucket (pcRaw (coerceValues series)) = "strongly downward"
          ↔ pcRaw (coerceValues series) < -5)
      ∧ (trendBucket (pcRaw (coerceValues series)) = "moderately downward"
          ↔ (-5 ≤ pcRaw (coerceValues series) ∧ pcRaw (coerceValues series) < -1))
      ∧ (trendBucket (pcRaw (coerceValues series)) = "relatively stable"
          ↔ (-1 ≤ pcRaw (coerceValues series) ∧ pcRaw (coerceValues series) ≤ 1)))
    ∧ trendBucket 5 = "moderately upward"
    ∧ trendBucket 1 = "relatively stable"
    ∧ trendBucket (-1) = "relatively stable"
    ∧ trendBucket (-5) = "moderately downward" := by
  have hvs : coerceValues series ≠ [] := by
    have hlen := coerceValues_all_num hnum
    intro hcon
    rw [hcon] at hlen
    simp at hlen
    omega
  obtain ⟨s1, s2, s3, s4, s5⟩ := trendBucket_spec (pcRaw (coerceValues series))
  refine ⟨⟨?_, s1, s2, s3, s4, s5⟩, by decide, by decide, by decide, by decide⟩
  rw [analyzePriceData_eq series (by omega) hvs hh]
  rfl

/-- Witness for C2 on the two-point series 1, 2 (all hypotheses are
decidable and the analysis succeeds). -/
theorem claim_C2_witness :
    (analyzePriceData [⟨"2024-01-01", PVal.num 1⟩, ⟨"2024-01-02", PVal.num 2⟩]).toOption.map
        Analysis.trend
      = some (trendBucket (pcRaw (coerceValues
          [⟨"2024-01-01", PVal.num 1⟩, ⟨"2024-01-02", PVal.num 2⟩]))) :=
  ((claim_C2_trend_thresholds [⟨"2024-01-01", PVal.num 1⟩, ⟨"2024-01-02", PVal.num 2⟩]
    (by
      intro e he
      simp only [List.mem_cons, List.not_mem_nil, or_false] at he
      rcases he with rfl | rfl
      · exact ⟨1, rfl⟩
      · exact ⟨2, rfl⟩)
    (by decide) (by decide)).1).1

/-- C3 counterexample: on the series -10, 10 the reported percent change
is -200 although the last value minus the first value is positive — the
sign of the reported percent change does NOT match the sign of
(last - first) when the first value is negative. -/
theorem claim_C3_counterexample :
    analyzePriceData [⟨"2024-01-01", PVal.num (-10)⟩, ⟨"2024-01-02", PVal.num 10⟩]
      = .ok ⟨"strongly downward",
          some { min := -10, max := 10, mean := 0, median := 0, rangeVal := 20,
                 start_price := -10, end_price := 10, percent_change := -200 }⟩
    ∧ (0:ℚ) < 10 - (-10) ∧ (-200:ℚ) < 0 := by
  have hcv : coerceValues [⟨"2024-01-01", PVal.num (-10)⟩, ⟨"2024-01-02", PVal.num 10⟩]
      = [(-10:ℚ), 10] := rfl
  have hpc : pcRaw [(-10:ℚ), 10] = -200 := by
    have hlast : ([(-10:ℚ), 10].getLastD 0) = 10 := rfl
    have hhead : ([(-10:ℚ), 10].headD 0) = -10 := rfl
    unfold pcRaw
    rw [hlast, hhead]
    norm_num
  have hround : round2 (-200 : ℚ) = -200 := by
    have h1 : ((-200 : ℚ)) = (((-200 : ℤ)) : ℚ) := by norm_num
    rw [h1, round2_int]
  have hsort : sortQ [(-10:ℚ), 10] = [-10, 10] := by
    norm_num [sortQ, insortA]
  refine ⟨?_, by norm_num, by norm_num⟩
  rw [analyzePriceData_eq _ (by decide) (by decide) (by decide), hcv, hpc, hround]
  norm_num [trendBucket, listMin, listMax, meanQ, medianQ, hsort, min_def, max_def]

/-- C3 amended: whenever the analysis succeeds and the FIRST value is
positive, the reported (rounded) percent change is nonnegative when the
series rose, nonpositive when it fell, and zero when last equals first;
the reported volatility is nonnegative, and min ≤ mean ≤ max and
min ≤ median ≤ max always hold. -/
theorem claim_C3_stats_bounds (series : List MEntry)
    (h2 : 2 ≤ series.length)
    (hvs : coerceValues series ≠ [])
    (hh : (coerceValues series).headD 0 ≠ 0) :
    ∃ st : Stats,
      analyzePriceData series
          = .ok ⟨trendBucket (pcRaw (coerceValues series)), some st⟩
      ∧ (0 < st.start_price →
            (st.start_price < st.end_price → 0 ≤ st.percent_change)
          ∧ (st.end_price < st.start_price → st.percent_change ≤ 0)
          ∧ (st.end_price = st.start_price → st.percent_change = 0))
      ∧ 0 ≤ volatilityOf (coerceValues series)
      ∧ st.min ≤ st.mean ∧ st.mean ≤ st.max
      ∧ st.min ≤ st.median ∧ st.median ≤ st.max := by
  refine ⟨_, analyzePriceData_eq series (by omega) hvs hh, ?_,
    volatilityOf_nonneg _, listMin_le_meanQ hvs, meanQ_le_listMax hvs,
    (medianQ_bounds hvs).1, (medianQ_bounds hvs).2⟩
  intro hpos
  dsimp only at hpos ⊢
  refine ⟨?_, ?_, ?_⟩
  · intro hlt
    apply round2_nonneg
    unfold pcRaw
    have hq : 0 ≤ ((coerceValues series).getLastD 0 - (coerceValues series).headD 0)
        / (coerceValues series).headD 0 :=
      div_nonneg (by linarith) hpos.le
    positivity
  · intro hlt
    apply round2_nonpos
    unfold pcRaw
    have hq : ((coerceValues series).getLastD 0 - (coerceValues series).headD 0)
        / (coerceValues series).headD 0 ≤ 0 :=
      div_nonpos_of_nonpos_of_nonneg (by linarith) hpos.le
    nlinarith
  · intro heq
    unfold pcRaw
    rw [heq, sub_self, zero_div, zero_mul]
    exact round2_zero

/-- Witness for C3 amended on the two-point series 1, 3. -/
theorem claim_C3_witness :
    ∃ st : Stats,
      analyzePriceData [⟨"2024-01-01", PVal.num 1⟩, ⟨"2024-01-02", PVal.num 3⟩]
          = .ok ⟨trendBucket (pcRaw (coerceValues
              [⟨"2024-01-01", PVal.num 1⟩, ⟨"2024-01-02", PVal.num 3⟩])), some st⟩
      ∧ (0 < st.start_price →
            (st.start_price < st.end_price → 0 ≤ st.percent_change)
          ∧ (st.end_price < st.start_price → st.percent_change ≤ 0)
          ∧ (st.end_price = st.start_price → st.percent_change = 0))
      ∧ 0 ≤ volatilityOf (coerceValues
            [⟨"2024-01-01", PVal.num 1⟩, ⟨"2024-01-02", PVal.num 3⟩])
      ∧ st.min ≤ st.mean ∧ st.mean ≤ st.max
      ∧ st.min ≤ st.median ∧ st.median ≤ st.max :=
  claim_C3_stats_bounds [⟨"2024-01-01", PVal.num 1⟩, ⟨"2024-01-02", PVal.num 3⟩]
    (by decide) (by decide) (by decide)

/-- C6 amended: fewer than 2 raw entries yield the insufficient-data
marker; at least 2 raw entries with zero coerced numeric values yield the
invalid-data marker; but statistics are produced already when at least
ONE numeric value survives coercion (and the first is nonzero), not only
from two. -/
theorem claim_C6_markers (series : List MEntry) :
    (series.length < 2 → analyzePriceData series = .ok ⟨"insufficient data", none⟩)
    ∧ (2 ≤ series.length → coerceValues series = [] →
        analyzePriceData series = .ok ⟨"invalid data", none⟩)
    ∧ (2 ≤ series.length → coerceValues series ≠ [] →
        (coerceValues series).headD 0 ≠ 0 →
        ∃ st, analyzePriceData series
          = .ok ⟨trendBucket (pcRaw (coerceValues series)), some st⟩) := by
  refine ⟨?_, ?_, ?_⟩
  · intro h
    simp only [analyzePriceData]
    rw [if_pos h]
  · intro h hcv
    simp only [analyzePriceData]
    rw [if_neg (by omega), if_pos hcv]
  · intro h hcv hh
    exact ⟨_, analyzePriceData_eq series (by omega) hcv hh⟩

/-- C6 counterexample: the two-entry series `["abc", "7"]` leaves a single
numeric point after coercion, yet full statistics are produced from it —
refuting "numeric statistics only from at least 2 numeric points". -/
theorem claim_C6_counterexample :
    (coerceValues [⟨"d1", PVal.str "abc"⟩, ⟨"d2", PVal.str "7"⟩]).length = 1
    ∧ analyzePriceData [⟨"d1", PVal.str "abc"⟩, ⟨"d2", PVal.str "7"⟩]
        = .ok ⟨"relatively stable",
            some { min := 7, max := 7, mean := 7, median := 7, rangeVal := 0,
                   start_price := 7, end_price := 7, percent_change := 0 }⟩ := by
  have hcv : coerceValues [⟨"d1", PVal.str "abc"⟩, ⟨"d2", PVal.str "7"⟩]
      = [(7:ℚ)] := rfl
  have hpc : pcRaw [(7:ℚ)] = 0 := by
    have hlast : ([(7:ℚ)].getLastD 0) = 7 := rfl
    have hhead : ([(7:ℚ)].headD 0) = 7 := rfl
    unfold pcRaw
    rw [hlast, hhead, sub_self, zero_div, zero_mul]
  refine ⟨rfl, ?_⟩
  rw [analyzePriceData_eq _ (by decide) (by decide) (by decide), hcv, hpc, round2_zero]
  norm_num [trendBucket, listMin, listMax, meanQ, medianQ, sortQ, insortA]

/-- Witness for C6 amended: the empty series yields the insufficient-data
marker. -/
theorem claim_C6_witness :
    analyzePriceData [] = .ok ⟨"insufficient data", none⟩ :=
  (claim_C6_markers []).1 (by decide)

/-- C7 counterexample: with the default base `"USD"` and request
`"USD,EUR"`, the `data.py` synthetic FX generator assigns the rate 1.0 to
the BASE currency itself — refuting "assigns no rate to the base". -/
theorem claim_C7_counterexample :
    dictGet (fetchFxRatesNoKey "USD" "USD,EUR") "USD" = some 1 := by
  have h : dictGet (fetchFxRatesNoKey "USD" "USD,EUR") "USD"
      = some (1 + ((0:ℕ) : ℚ) * (1/10)) := rfl
  rw [h]
  norm_num

/-- C7 amended: for distinct requested symbols, the `data.py` generator
assigns `1.0 + 0.1 * position` to EVERY requested symbol, the base
included; only the `app.py` generator excludes the base, giving each
non-base symbol `1.0 + 0.1 * position` (position counted in the full
request) and no rate to the base. -/
theorem claim_C7_mock_fx_rates (symbols base : String)
    (hnd : (splitComma symbols).Nodup) :
    (∀ j (hj : j < (splitComma symbols).length),
        dictGet (generateMockFxData symbols) ((splitComma symbols).get ⟨j, hj⟩)
          = some (1 + (j : ℚ) * (1/10)))
    ∧ (∀ j (hj : j < (splitComma symbols).length),
        (splitComma symbols).get ⟨j, hj⟩ ≠ base →
        dictGet (appGenerateMockFxData symbols base) ((splitComma symbols).get ⟨j, hj⟩)
          = some (1 + (j : ℚ) * (1/10)))
    ∧ dictGet (appGenerateMockFxData symbols base) base = none := by
  refine ⟨?_, ?_, dictGet_mkRatesApp_base⟩
  · intro j hj
    have h := dictGet_mkRatesData hnd 0 j hj
    simpa using h
  · intro j hj hne
    have h := dictGet_mkRatesApp hnd 0 j hj hne
    simpa using h

/-- Witness for C7 amended at base USD with request EUR,JPY: EUR gets 1.0
and the base gets no rate from the `app.py` generator. -/
theorem claim_C7_witness :
    dictGet (appGenerateMockFxData "EUR,JPY" "USD") "USD" = none :=
  (claim_C7_mock_fx_rates "EUR,JPY" "USD" (by decide)).2.2

/-- C8 amended: `app.py`'s `_identify_intent` returns `oil_price` via the
location-plus-keyword fallback and `unknown` when neither the pattern
groups nor the fallback apply; `mcp_tools.parse_query_fallback`, by
contrast, never returns `unknown` (see the counterexample). -/
theorem claim_C8_intent_unknown (q : List Char)
    (h1 : oilPatterns.all (fun r => !searchRx r (lowerL q)) = true)
    (h2 : fxPatterns.all (fun r => !searchRx r (lowerL q)) = true)
    (h3 : weatherPatterns.all (fun r => !searchRx r (lowerL q)) = true) :
    ((searchRx (locationRx q.length) q && searchRx fuelKeywordRx (lowerL q)) = true →
        identifyIntent q = "oil_price")
    ∧ ((searchRx (locationRx q.length) q && searchRx fuelKeywordRx (lowerL q)) = false →
        identifyIntent q = "unknown") := by
  have ho := any_eq_false_of_all_not _ _ h1
  have hf := any_eq_false_of_all_not _ _ h2
  have hw := any_eq_false_of_all_not _ _ h3
  constructor <;> intro hfall <;>
    simp only [identifyIntent, ho, hf, hw, hfall] <;> rfl

/-- Witness for C8 amended: "petrol in germany" matches no intent pattern
but has a location phrase plus a fuel keyword, and "hello" triggers
nothing, giving `unknown`. -/
theorem claim_C8_witness :
    identifyIntent "petrol in germany".toList = "oil_price"
    ∧ identifyIntent "hello".toList = "unknown" :=
  ⟨(claim_C8_intent_unknown "petrol in germany".toList
      (by decide) (by decide) (by decide)).1 (by decide),
   (claim_C8_intent_unknown "hello".toList
      (by decide) (by decide) (by decide)).2 (by decide)⟩

/-- C8 counterexample: on "hello" none of `parse_query_fallback`'s
keyword groups matches and no fallback heuristic exists, yet the function
returns `oil_price`, not `unknown`. -/
theorem claim_C8_counterexample :
    oilTerms.all (fun w => !containsSub (lowerL "hello".toList) w) = true
    ∧ fxTerms.all (fun w => !containsSub (lowerL "hello".toList) w) = true
    ∧ weatherTerms.all (fun w => !containsSub (lowerL "hello".toList) w) = true
    ∧ parseQueryFallbackIntent "hello".toList = "oil_price"
    ∧ parseQueryFallbackIntent "hello".toList ≠ "unknown" := by
  refine ⟨by decide, by decide, by decide, by decide, by decide⟩

/-- C9: the query "10000000 days ago" matches neither the date-range nor
the single-date pattern, matches the days-ago pattern, and the resulting
date subtraction overflows for EVERY representable `today` — the
exception escapes `analyze_query` and hence `process_query`, which has no
try/except. -/
theorem claim_C9_days_ago_overflow (todayOrd : ℕ)
    (h1 : 1 ≤ todayOrd) (h2 : todayOrd ≤ maxPyOrdinal) :
    searchRx dateRangeRx "10000000 days ago".toList = false
    ∧ searchRx singleDateRx "10000000 days ago".toList = false
    ∧ findDaysAgo "10000000 days ago".toList = some "10000000".toList
    ∧ analyzeDaysAgoBranch todayOrd "10000000 days ago".toList
        = some (.error .overflowError) := by
  refine ⟨by decide, by decide, by decide, ?_⟩
  have hf : findDaysAgo "10000000 days ago".toList = some "10000000".toList := by decide
  have hd : digitsToNat "10000000".toList = 10000000 := by decide
  have hmax : maxPyOrdinal = 3652059 := by decide
  unfold analyzeDaysAgoBranch
  rw [hf]
  simp only [Option.map]
  rw [hd]
  unfold daysAgoDates
  rw [if_neg (by omega), if_pos (by rw [hmax] at h2; push_cast; omega)]

/-- Witness for C9 at today = 2026-10-12 (ordinal 739901). -/
theorem claim_C9_witness :
    analyzeDaysAgoBranch (toOrdinal ⟨2026, 10, 12⟩) "10000000 days ago".toList
      = some (.error .overflowError) :=
  (claim_C9_days_ago_overflow (toOrdinal ⟨2026, 10, 12⟩) (by decide) (by decide)).2.2.2

end TradeMatrix
